import Mathlib

/-!
Verification of the kiwis in-memory tabular data library (DataFrame / Series /
PivotTable) against its natural-language specification.

The JavaScript sources are shallowly embedded: JavaScript scalar values become
an inductive `Value` type (numbers are modelled as rationals, which covers every
numeric value the verified scenarios produce), objects (rows) become ordered
association lists with JavaScript key-insertion semantics, and methods become
pure Lean functions over those representations.  Fallible operations return
`Except String`.  Reference aliasing (the `clone` / `inPlace` contract) is
modelled by a small explicit heap of arrays, mirroring which constructor paths
share the underlying `_data` array and which copy it.
-/

namespace Kiwis

/-- Exact rational numbers with an evaluable (kernel-reducible)
representation, used to model the JavaScript numbers the library manipulates.
Every construction goes through the normalising smart constructor, so two
equal numbers have identical representations and structural equality models
JavaScript `===` on numbers.  (JavaScript numbers are binary floats; the
rationals are a standard shallow-embedding choice that is exact on every value
the verified scenarios produce.) -/
structure JsNumber where
  n : Int
  d : Nat
  deriving DecidableEq, Repr

/-- Normalising constructor: reduce `n / d` to lowest terms (`d` positive). -/
def JsNumber.norm (n : Int) (d : Nat) : JsNumber :=
  let g := Nat.gcd n.natAbs d
  if g = 0 then ⟨0, 1⟩ else ⟨n / (g : Int), d / g⟩

/-- Normalising constructor for a possibly negative denominator; a zero
denominator yields 0 (never reached by the verified code paths). -/
def JsNumber.norm2 (n d : Int) : JsNumber :=
  if d = 0 then ⟨0, 1⟩
  else if d < 0 then JsNumber.norm (-n) (-d).toNat
  else JsNumber.norm n d.toNat

instance (k : ℕ) : OfNat JsNumber k := ⟨⟨(k : Int), 1⟩⟩

def JsNumber.add (a b : JsNumber) : JsNumber :=
  JsNumber.norm (a.n * b.d + b.n * a.d) (a.d * b.d)

def JsNumber.sub (a b : JsNumber) : JsNumber :=
  JsNumber.norm (a.n * b.d - b.n * a.d) (a.d * b.d)

def JsNumber.mul (a b : JsNumber) : JsNumber :=
  JsNumber.norm (a.n * b.n) (a.d * b.d)

def JsNumber.div (a b : JsNumber) : JsNumber :=
  JsNumber.norm2 (a.n * b.d) ((a.d : Int) * b.n)

def JsNumber.neg (a : JsNumber) : JsNumber :=
  ⟨-a.n, a.d⟩

/-- Numeric strict order (denominators are positive). -/
def JsNumber.lt (a b : JsNumber) : Bool :=
  a.n * b.d < b.n * a.d

/-- Three-way comparison used when sorting numbers ascending. -/
def JsNumber.cmp (a b : JsNumber) : Int :=
  if JsNumber.lt a b then -1 else if JsNumber.lt b a then 1 else 0

/-- The rational value of an integer-part/fraction-part/exponent decimal
literal: `(ip.fp) * 10^e`. -/
def decToNumber (ipN fpN fpLen : ℕ) (e : ℤ) : JsNumber :=
  let num : ℤ := (ipN * 10 ^ fpLen + fpN : ℕ)
  let den : ℕ := 10 ^ fpLen
  if 0 ≤ e then JsNumber.norm (num * 10 ^ e.toNat) den
  else JsNumber.norm num (den * 10 ^ (-e).toNat)

/-- JavaScript scalar values as they appear in a DataFrame cell or a Series
entry after a `JSON.parse(JSON.stringify(...))` round trip: numbers (modelled
as rationals), strings, booleans, `null`, and `undefined` (which can appear as
the value of a cell created by the column setter). -/
inductive Value where
  | num (q : JsNumber)
  | str (s : String)
  | bool (b : Bool)
  | null
  | undefinedV
  deriving DecidableEq, Repr

/-- JavaScript truthiness of a scalar: `0`, the empty string, `false`, `null`
and `undefined` are falsy, everything else is truthy. -/
def Value.truthy : Value → Bool
  | .num q => q.n != 0
  | .str s => s != ""
  | .bool b => b
  | .null => false
  | .undefinedV => false

/-- Whether the value is a JavaScript boolean (models a
`typeof value === 'boolean'` test). -/
def Value.isBool : Value → Bool
  | .bool _ => true
  | _ => false

/-- The JavaScript whitespace characters recognised by our model of string
trimming (a subset of the full Unicode list, sufficient for the library). -/
def isJsWhitespace (c : Char) : Bool :=
  c = ' ' || c = '\t' || c = '\n' || c = '\r'

/-- Numeric value of a list of decimal digit characters (no validation). -/
def natOfDigits (cs : List Char) : ℕ :=
  cs.foldl (fun a c => a * 10 + (c.toNat - 48)) 0

/-- Parse a nonempty all-digit character list, `none` otherwise. -/
def parseNatDigits (cs : List Char) : Option ℕ :=
  if cs ≠ [] ∧ cs.all Char.isDigit then some (natOfDigits cs) else none

/-- Model of the unsigned part of a JavaScript decimal numeric literal:
`digits`, `digits.digits`, `.digits`, `digits.`, each optionally followed by an
exponent `e`/`E` with optional sign.  Hexadecimal, binary, octal and
`Infinity` forms are not modelled (they are treated as failing, i.e. NaN);
none of the verified scenarios exercise them. -/
def parseDecimal (cs : List Char) : Option JsNumber :=
  let mantExp : List Char × Option (List Char) :=
    match cs.span (fun c => !(c = 'e' || c = 'E')) with
    | (m, []) => (m, none)
    | (m, _ :: es) => (m, some es)
  let mantVal : Option (ℕ × ℕ × ℕ) :=
    match mantExp.1.span (fun c => c ≠ '.') with
    | (ip, []) => (parseNatDigits ip).map (fun n => (n, 0, 0))
    | (ip, _ :: fp) =>
      if ip = [] ∧ fp = [] then none
      else if ip.all Char.isDigit ∧ fp.all Char.isDigit then
        some (natOfDigits ip, natOfDigits fp, fp.length)
      else none
  let expVal : Option ℤ :=
    match mantExp.2 with
    | none => some 0
    | some ('+' :: ds) => (parseNatDigits ds).map Int.ofNat
    | some ('-' :: ds) => (parseNatDigits ds).map (fun n => -(n : ℤ))
    | some ds => (parseNatDigits ds).map Int.ofNat
  match mantVal, expVal with
  | some m, some e => some (decToNumber m.1 m.2.1 m.2.2 e)
  | _, _ => none

/-- Model of JavaScript `ToNumber` on strings (the behaviour of `+s`): trim
whitespace, the empty string converts to `0`, otherwise parse an optionally
signed decimal literal; `none` represents NaN. -/
def jsStringToNumber (s : String) : Option JsNumber :=
  let cs := ((s.data.dropWhile isJsWhitespace).reverse.dropWhile isJsWhitespace).reverse
  match cs with
  | [] => some 0
  | '+' :: rest => parseDecimal rest
  | '-' :: rest => (parseDecimal rest).map JsNumber.neg
  | _ => parseDecimal cs

/-- JavaScript numeric coercion `+value` of a scalar; `none` represents NaN
(so `Number.isNaN (+value)` is modelled by `(toNumber v).isNone`).  Note
`+null = 0`, `+true = 1`, `+false = 0`, `+undefined = NaN`. -/
def Value.toNumber : Value → Option JsNumber
  | .num q => some q
  | .str s => jsStringToNumber s
  | .bool b => some (if b then 1 else 0)
  | .null => some 0
  | .undefinedV => none

/-- Lexicographic comparison of character lists by code point, modelling
JavaScript string `<` (which compares code units). -/
def charListLt : List Char → List Char → Bool
  | [], [] => false
  | [], _ :: _ => true
  | _ :: _, [] => false
  | a :: as, b :: bs =>
    if a.toNat < b.toNat then true
    else if b.toNat < a.toNat then false
    else charListLt as bs

/-- JavaScript `<` on two strings. -/
def jsStrLt (s t : String) : Bool :=
  charListLt s.data t.data

/-- JavaScript `<` on scalars: string-to-string comparison is lexicographic,
every other combination goes through numeric coercion, and any NaN operand
makes the comparison false. -/
def jsLt : Value → Value → Bool
  | .str s, .str t => jsStrLt s t
  | a, b =>
    match a.toNumber, b.toNumber with
    | some x, some y => JsNumber.lt x y
    | _, _ => false

/-- A JavaScript object (row of a DataFrame) as an ordered association list.
Key order is insertion order, matching `Object.keys` / `Object.values`. -/
abbrev Row := List (String × Value)

/-- Property read `row[key]`: the first binding of the key, or `undefined` if
the key is absent (JavaScript semantics). -/
def rowGet (r : Row) (k : String) : Value :=
  match r.find? (fun kv => kv.1 = k) with
  | some kv => kv.2
  | none => .undefinedV

/-- Property write / spread insertion `{...r, [k]: v}`: if the key already
exists its value is replaced at its original position, otherwise the binding
is appended, matching JavaScript key-insertion-order semantics. -/
def objInsert (r : Row) (k : String) (v : Value) : Row :=
  match r with
  | [] => [(k, v)]
  | (k', v') :: rest => if k' = k then (k, v) :: rest else (k', v') :: objInsert rest k v

/-- Strip bindings whose value is `undefined`: this is exactly what a
`JSON.parse(JSON.stringify(row))` round trip does to a flat record (all other
scalars survive unchanged in our model). -/
def jsonRow (r : Row) : Row :=
  r.filter (fun kv => kv.2 ≠ .undefinedV)

/-- Normalisation applied to a value when it is serialised inside a JSON
array: `undefined` array entries print as `null`; all other scalars keep their
identity.  Two value lists are `JSON.stringify`-equal iff their normalisations
are equal. -/
def jsonNorm : Value → Value
  | .undefinedV => .null
  | v => v

/-- First-occurrence deduplication of a string list: models
`Array.from(new Set(list))`, which preserves first-insertion order. -/
def dedupFirstSeen (l : List String) : List String :=
  l.foldl (fun acc s => if s ∈ acc then acc else acc ++ [s]) []

/-- The cell-level numeric coercion the DataFrame constructor applies to the
deep-copied input rows: `if (value && typeof value !== 'boolean' &&
!Number.isNaN(+value)) row[key] = +value`. -/
def coerceCell (v : Value) : Value :=
  if v.truthy && !v.isBool then
    match v.toNumber with
    | some q => .num q
    | none => v
  else v

/-- Pure view of a DataFrame: the `_data` row list and the `_columns` list. -/
structure DataFrame where
  data : List Row
  columns : List String
  deriving DecidableEq, Repr

/-- The row transformation of the DataFrame constructor on an array argument:
deep copy through JSON (dropping `undefined` fields) and then per-cell numeric
coercion of each remaining field. -/
def constructorRows (rows : List Row) : List Row :=
  rows.map (fun r => (jsonRow r).map (fun kv => (kv.1, coerceCell kv.2)))

/-- The column list the constructor derives from the (already copied and
coerced) rows: the set of all keys in first-seen order. -/
def constructorCols (rows : List Row) : List String :=
  dedupFirstSeen (rows.foldl (fun acc r => acc ++ r.map Prod.fst) [])

/-- `new DataFrame(data)` on an optional array argument (`none` models a
missing/undefined argument): empty or missing input yields an empty DataFrame,
otherwise the rows are deep-copied, coerced, and the columns derived. -/
def DataFrame.mk' : Option (List Row) → DataFrame
  | none => ⟨[], []⟩
  | some rows =>
    if rows.length = 0 then ⟨[], []⟩
    else
      let d := constructorRows rows
      ⟨d, constructorCols d⟩

/-- `new DataFrame(rows)` on a present array argument. -/
def DataFrame.fromArray (rows : List Row) : DataFrame :=
  DataFrame.mk' (some rows)

/-- `DataFrame.toArray()`: returns the row storage. -/
def DataFrame.toArray (df : DataFrame) : List Row :=
  df.data

/-- The multi-key comparator of `DataFrame.sort`, translated from
`keys.reduce((acc, key) => { if (a[key] === b[key]) return 0;
if (reverse) return acc || (b[key] < a[key] ? -1 : 1);
return acc || (a[key] < b[key] ? -1 : 1); }, 0)`.
Returning `0` from the reduce callback on an equal key resets the accumulator
(it does not exit the comparator), and `acc || x` keeps a nonzero accumulator. -/
def sortComparator (keys : List String) (reverse : Bool) (a b : Row) : Int :=
  keys.foldl
    (fun acc key =>
      if rowGet a key = rowGet b key then 0
      else if acc ≠ 0 then acc
      else if reverse then (if jsLt (rowGet b key) (rowGet a key) then -1 else 1)
      else (if jsLt (rowGet a key) (rowGet b key) then -1 else 1))
    0

/-- Stable insertion of an element into an already-processed list under an
integer comparator: the new element goes after every element it does not
strictly precede.  Folding `insertStable` over a list from the left is a
stable sort, which is the behaviour ECMAScript guarantees for
`Array.prototype.sort`. -/
def insertStable {α : Type} (cmp : α → α → Int) (x : α) : List α → List α
  | [] => [x]
  | y :: ys => if cmp x y < 0 then x :: y :: ys else y :: insertStable cmp x ys

/-- Stable comparator sort, modelling `Array.prototype.sort(cmp)` (which is
required to be stable since ES2019). -/
def stableSortBy {α : Type} (cmp : α → α → Int) (l : List α) : List α :=
  l.foldl (fun acc x => insertStable cmp x acc) []

/-- The sorted row list produced by `DataFrame.sort(by, options)`:
`[...this._data].sort(comparator)`. -/
def DataFrame.sortData (data : List Row) (keys : List String) (reverse : Bool) : List Row :=
  stableSortBy (sortComparator keys reverse) data

/-- `DataFrame.sort` without `inPlace`: returns `new DataFrame(sortedData)`. -/
def DataFrame.sort (df : DataFrame) (keys : List String) (reverse : Bool) : DataFrame :=
  DataFrame.fromArray (DataFrame.sortData df.data keys reverse)

/-- Model of `new Set(newColumns).length`: a JavaScript `Set` exposes `size`,
not `length`, so this property access yields `undefined` for every input. -/
def jsSetLength (_ : List String) : Option ℕ :=
  none

/-- Model of `undefined < n` (and more generally of `<` with a possibly
undefined left operand): `undefined` coerces to NaN and every NaN comparison
is false. -/
def jsUndefLt (a : Option ℕ) (b : ℕ) : Bool :=
  match a with
  | none => false
  | some x => decide (x < b)

/-- The per-row rewrite performed by the `columns` setter:
`newColumns.reduce((newRow, column, index) => ({...newRow,
[column]: row[column] !== undefined ? row[column]
: index < this._columns.length ? row[this._columns[index]] : null}), {})`.
Note that when both lookups yield `undefined` the key is still created, bound
to `undefined`. -/
def rebuildRow (newCols oldCols : List String) (row : Row) : Row :=
  newCols.enum.foldl
    (fun acc p =>
      objInsert acc p.2
        (if rowGet row p.2 ≠ .undefinedV then rowGet row p.2
         else match oldCols.get? p.1 with
           | some oldc => rowGet row oldc
           | none => .null))
    []

/-- The `columns` setter of DataFrame.  The duplicate-name guard tests
`new Set(newColumns).length < newColumns.length`; since the `length` property
of a Set is `undefined`, the guard can never fire, so the setter always
proceeds to rebuild every row against the new column list and replace
`_columns`. -/
def DataFrame.setColumns (df : DataFrame) (newColumns : List String) :
    Except String DataFrame :=
  if jsUndefLt (jsSetLength newColumns) newColumns.length then
    .error "Multiple columns cannot have the same name"
  else
    .ok ⟨df.data.map (rebuildRow newColumns df.columns), newColumns⟩

/-- The serialized projection `dropDuplicates` compares rows by:
`Object.values(columns.reduce((acc, column) => ({...acc, [column]:
row[column]}), {}))`, compared via `JSON.stringify` (hence the
`undefined ↦ null` array normalisation). -/
def projKey (cols : List String) (row : Row) : List Value :=
  ((cols.foldl (fun acc c => objInsert acc c (rowGet row c)) []).map Prod.snd).map jsonNorm

/-- One step of the inner forEach of `dropDuplicates`: skip when either index
is already marked (`rowsToDrop.includes`), push `iB` when the serialized
projections match. -/
def dropStep (keys : List (List Value)) (iA : ℕ) (ds : List ℕ) (iB : ℕ) : List ℕ :=
  if iA ∈ ds ∨ iB ∈ ds then ds
  else if keys[iA]? = keys[iB]? then ds ++ [iB] else ds

/-- The inner loop of `dropDuplicates` for a fixed outer index `iA`: walk the
indices after `iA` (`this._data.slice(indexA + 1)` with
`indexB = indexA + 1 + index`). -/
def innerPass (keys : List (List Value)) (iA : ℕ) (ds : List ℕ) : List ℕ :=
  (List.range' (iA + 1) (keys.length - (iA + 1))).foldl (dropStep keys iA) ds

/-- The state of `rowsToDrop` after the first `m` outer iterations. -/
def outerState (keys : List (List Value)) (m : ℕ) : List ℕ :=
  (List.range m).foldl (fun ds iA => innerPass keys iA ds) []

/-- The `rowsToDrop` index list accumulated by the nested forEach loops of
`DataFrame.dropDuplicates`. -/
def rowsToDrop (keys : List (List Value)) : List ℕ :=
  outerState keys keys.length

/-- Whether index `i` is a duplicate position in `keys`: some earlier index
holds an equal key. -/
def isDupB (keys : List (List Value)) (i : ℕ) : Bool :=
  (List.range i).any (fun j => keys[j]? == keys[i]?)

/-- Keep the elements whose (running) index satisfies the predicate, starting
from index `i`.  Splicing a descending-sorted list of distinct indices out of
an array keeps exactly the elements at unmarked indices, in order, which is
what this computes. -/
def keepIdx (p : ℕ → Bool) : ℕ → List Row → List Row
  | _, [] => []
  | i, r :: rs => if p i then r :: keepIdx p (i + 1) rs else keepIdx p (i + 1) rs

/-- The surviving rows of `dropDuplicates`: every row whose index was not
pushed onto `rowsToDrop`. -/
def dropDuplicatesData (cols : List String) (data : List Row) : List Row :=
  let keys := data.map (projKey cols)
  keepIdx (fun i => !decide (i ∈ rowsToDrop keys)) 0 data

/-- `DataFrame.dropDuplicates()` with default options (all columns, not in
place): computes the duplicate indices, splices them out, and then runs
`df.columns = df._columns`, which rebuilds every surviving row through the
columns setter (whose duplicate guard never fires, see `DataFrame.setColumns`). -/
def DataFrame.dropDuplicates (df : DataFrame) : DataFrame :=
  ⟨(dropDuplicatesData df.columns df.data).map (rebuildRow df.columns df.columns),
    df.columns⟩

/-- Modelled from the spec: first-occurrence deduplication of rows keyed by
the serialized projection onto the chosen columns — a later row is removed
exactly when some earlier row has an equal projection, survivors keep their
original order.  Written directly from the specification text for comparison
with the code-derived `DataFrame.dropDuplicates`. -/
def specDedupAux (cols : List String) (seen : List (List Value)) : List Row → List Row
  | [] => []
  | r :: rs =>
    let k := projKey cols r
    if k ∈ seen then specDedupAux cols seen rs
    else r :: specDedupAux cols (k :: seen) rs

/-- Modelled from the spec: keep the first occurrence of each projection key. -/
def specDedup (cols : List String) (data : List Row) : List Row :=
  specDedupAux cols [] data

/-- The four join modes of `DataFrame.join`. -/
inductive JoinHow where
  | inner
  | outer
  | left
  | right
  deriving DecidableEq, Repr

/-- Merging the matched row from the other side into a row:
`Object.entries(otherRow).reduce((acc, [key, value]) => ({...acc,
[key]: value}), row)` — the other side's fields overwrite or extend the row. -/
def mergeRow (base other : Row) : Row :=
  other.foldl (fun acc kv => objInsert acc kv.1 kv.2) base

/-- The `getNewData` closure of `DataFrame.join`: for each row, the first row
of the other side with a strictly equal join-column value is merged in; an
unmatched row is dropped under `inner` and kept as-is otherwise. -/
def getNewData (how : JoinHow) (column : String) (data otherData : List Row) : List Row :=
  data.foldl
    (fun acc row =>
      match otherData.find? (fun o => decide (rowGet row column = rowGet o column)) with
      | some o => acc ++ [mergeRow row o]
      | none => if how = .inner then acc else acc ++ [row])
    []

/-- `DataFrame.join(other, column, { how })` without `inPlace`: build the
joined row list per mode, then return `new DataFrame(newData).dropDuplicates()`. -/
def DataFrame.join (df other : DataFrame) (column : String) (how : JoinHow) : DataFrame :=
  let newData :=
    match how with
    | .inner => getNewData .inner column df.data other.data
    | .left => getNewData .left column df.data other.data
    | .right => getNewData .right column other.data df.data
    | .outer =>
      getNewData .outer column df.data other.data
        ++ getNewData .outer column other.data df.data
  DataFrame.dropDuplicates (DataFrame.fromArray newData)

/-- Column-axis `DataFrame.filter` with an allow-list (not in place): the kept
columns are the current columns that appear in the list, each row is projected
onto them, and a fresh DataFrame is constructed from the projected rows. -/
def DataFrame.filterColumns (df : DataFrame) (keep : List String) : DataFrame :=
  let cols := df.columns.filter (fun c => c ∈ keep)
  let filtered := df.data.map
    (fun r => cols.foldl (fun acc c => objInsert acc c (rowGet r c)) [])
  DataFrame.fromArray filtered

/-- `DataFrame.drop(list)` with a column list: filters by the complement of
the list. -/
def DataFrame.dropColumns (df : DataFrame) (dropList : List String) : DataFrame :=
  DataFrame.filterColumns df (df.columns.filter (fun c => ¬ c ∈ dropList))

/-- The guard every Series numeric aggregate runs first:
`this.any(value => Number.isNaN(+value))`. -/
def seriesAnyNaN (l : List Value) : Bool :=
  l.any (fun v => v.toNumber.isNone)

/-- Model of `d3.sum(values, d => +d)`: sums the coerced values, skipping
non-coercible ones (d3 skips falsy coerced values, but skipping zero does not
change a sum). -/
def d3sum (l : List Value) : JsNumber :=
  (l.filterMap Value.toNumber).foldl JsNumber.add 0

/-- Model of `d3.min(values, d => +d)`: minimum of the coercible values,
`undefined` (none) when there are none. -/
def d3min (l : List Value) : Option JsNumber :=
  match l.filterMap Value.toNumber with
  | [] => none
  | x :: xs => some (xs.foldl (fun m v => if JsNumber.lt v m then v else m) x)

/-- Model of `d3.max(values, d => +d)`. -/
def d3max (l : List Value) : Option JsNumber :=
  match l.filterMap Value.toNumber with
  | [] => none
  | x :: xs => some (xs.foldl (fun m v => if JsNumber.lt m v then v else m) x)

/-- Model of `d3.extent(values, d => +d)`: the `[min, max]` pair. -/
def d3extent (l : List Value) : Option JsNumber × Option JsNumber :=
  (d3min l, d3max l)

/-- Model of `d3.mean(values, d => +d)`: arithmetic mean of the coercible
values, `undefined` for an empty input. -/
def d3mean (l : List Value) : Option JsNumber :=
  let xs := l.filterMap Value.toNumber
  if xs.length = 0 then none
  else some (JsNumber.div (xs.foldl JsNumber.add 0) ⟨(xs.length : Int), 1⟩)

/-- Model of `d3.median(values, d => +d)`: the R-7 0.5-quantile of the sorted
coercible values — the middle element for odd length, the average of the two
middle elements for even length. -/
def d3median (l : List Value) : Option JsNumber :=
  let xs := stableSortBy JsNumber.cmp (l.filterMap Value.toNumber)
  if xs.length = 0 then none
  else if xs.length % 2 = 1 then xs.get? (xs.length / 2)
  else some (JsNumber.div (JsNumber.add (xs.getD (xs.length / 2 - 1) 0)
    (xs.getD (xs.length / 2) 0)) 2)

/-- Model of `d3.variance(values, d => +d)`: unbiased sample variance,
`undefined` when fewer than two coercible values. -/
def d3variance (l : List Value) : Option JsNumber :=
  let xs := l.filterMap Value.toNumber
  if xs.length < 2 then none
  else
    let m := JsNumber.div (xs.foldl JsNumber.add 0) ⟨(xs.length : Int), 1⟩
    some (JsNumber.div
      (xs.foldl (fun acc x => JsNumber.add acc (JsNumber.mul (JsNumber.sub x m) (JsNumber.sub x m))) 0)
      ⟨(xs.length : Int) - 1, 1⟩)

/-- `Series.sum()`: throws when any value coerces to NaN, otherwise delegates
to `d3.sum` over the coerced values. -/
def Series.sum (l : List Value) : Except String JsNumber :=
  if seriesAnyNaN l then .error "Cannot sum non-number values" else .ok (d3sum l)

/-- `Series.min()`. -/
def Series.min (l : List Value) : Except String (Option JsNumber) :=
  if seriesAnyNaN l then .error "Cannot compute non-number values" else .ok (d3min l)

/-- `Series.max()`. -/
def Series.max (l : List Value) : Except String (Option JsNumber) :=
  if seriesAnyNaN l then .error "Cannot compute non-number values" else .ok (d3max l)

/-- `Series.extent()`. -/
def Series.extent (l : List Value) : Except String (Option JsNumber × Option JsNumber) :=
  if seriesAnyNaN l then .error "Cannot compute non-number values" else .ok (d3extent l)

/-- `Series.mean()`. -/
def Series.mean (l : List Value) : Except String (Option JsNumber) :=
  if seriesAnyNaN l then .error "Cannot average non-number values" else .ok (d3mean l)

/-- `Series.median()`. -/
def Series.median (l : List Value) : Except String (Option JsNumber) :=
  if seriesAnyNaN l then .error "Cannot compute non-number values" else .ok (d3median l)

/-- `Series.std()`: `d3.deviation` is the square root of the sample variance;
the square root (an external d3 computation producing an irrational float in
general) is abstracted as a function parameter, so the theorem quantifies over
every possible implementation of it. -/
def Series.std (sqrtFn : JsNumber → JsNumber) (l : List Value) :
    Except String (Option JsNumber) :=
  if seriesAnyNaN l then .error "Cannot compute non-number values"
  else .ok ((d3variance l).map sqrtFn)

/-- Whether an `Except` is an error. -/
def isErr {ε α : Type} : Except ε α → Bool
  | .error _ => true
  | .ok _ => false

/-- Model of `Array.prototype.reduce(callback)` with no initial value: throws
(modelled as `none`) on an empty array, otherwise seeds the accumulator with
the first element and folds from the second. -/
def arrayReduceNoInit (f : Value → Value → Value) : List Value → Option Value
  | [] => none
  | x :: xs => some (xs.foldl f x)

/-- `Series.reduce(callback, initial)`: the source tests `if (initial)` —
JavaScript truthiness — so a falsy initial value (including an absent one,
modelled as `undefined`) falls through to the no-initial-value overload. -/
def Series.reduce (f : Value → Value → Value) (initial : Value) (l : List Value) :
    Option Value :=
  if initial.truthy then some (l.foldl f initial) else arrayReduceNoInit f l

/-- Model of `String(v)` for the scalars used as d3-nest keys.  JavaScript
float formatting is modelled exactly for integer-valued numbers only (the
non-integer placeholder never arises in the verified scenarios). -/
def valueKeyString : Value → String
  | .str s => s
  | .bool b => if b then "true" else "false"
  | .null => "null"
  | .undefinedV => "undefined"
  | .num q =>
    if q.d = 1 then
      (if q.n < 0 then "-" ++ Nat.repr q.n.natAbs else Nat.repr q.n.natAbs)
    else "<noninteger>"

/-- Append a row to the group with the given key, or start a new group at the
end (d3-nest groups in first-seen key order, values in encounter order). -/
def addToGroups (k : String) (r : Row) : List (String × List Row) → List (String × List Row)
  | [] => [(k, [r])]
  | (k', rs) :: rest =>
    if k' = k then (k', rs ++ [r]) :: rest else (k', rs) :: addToGroups k r rest

/-- Group rows by a string key, preserving first-seen key order. -/
def groupByKey (f : Row → String) (rows : List Row) : List (String × List Row) :=
  rows.foldl (fun acc r => addToGroups (f r) r acc) []

/-- The `sortKeys((a, b) => a - b)` comparator of the pivot construction: both
keys are strings, so the subtraction coerces them; if either fails to coerce
the difference is NaN, which `Array.prototype.sort` treats as 0 (a tie). -/
def keyCmp (a b : String) : Int :=
  match jsStringToNumber a, jsStringToNumber b with
  | some x, some y => JsNumber.cmp x y
  | _, _ => 0

/-- The nested grouping tree a PivotTable stores: leaves hold a DataFrame of
the group's rows with the pivot columns dropped. -/
inductive PTree where
  | leaf : DataFrame → PTree
  | node : List (String × PTree) → PTree

/-- A leaf of the pivot tree:
`this._kw.DataFrame(entry.values).drop(this._pivots)`. -/
def leafDF (pivots : List String) (rows : List Row) : DataFrame :=
  DataFrame.dropColumns (DataFrame.fromArray rows) pivots

/-- The sorted groups of one pivot level: group by the stringified pivot value
in first-seen order, then `sortKeys((a, b) => a - b)` (stable, NaN ties keep
the first-seen order). -/
def sortedGroups (p : String) (rows : List Row) : List (String × List Row) :=
  stableSortBy (fun a b => keyCmp a.1 b.1)
    (groupByKey (fun r => valueKeyString (rowGet r p)) rows)

/-- Build the pivot tree: recurse through the pivot columns, grouping at each
level; the last pivot level produces the leaf DataFrames. -/
def buildTree (pivots : List String) : List String → List Row → PTree
  | [], rows => .leaf (leafDF pivots rows)
  | [p], rows =>
    .node ((sortedGroups p rows).map (fun g => (g.1, .leaf (leafDF pivots g.2))))
  | p :: rest, rows =>
    .node ((sortedGroups p rows).map (fun g => (g.1, buildTree pivots rest g.2)))

/-- The state of a constructed PivotTable: pivots, the sorted snapshot
DataFrame, the non-pivot columns, and the tree. -/
structure PivotTable where
  pivots : List String
  df : DataFrame
  leafCols : List String
  tree : PTree

/-- `new PivotTable(df, columns)`: clone-and-sort the source by the pivot
columns (the non-in-place sort already returns a fresh DataFrame), compute the
non-pivot columns, and build the tree. -/
def PivotTable.mk' (df : DataFrame) (pivots : List String) : PivotTable :=
  let sorted := DataFrame.sort df pivots false
  { pivots := pivots
    df := sorted
    leafCols := sorted.columns.filter (fun c => ¬ c ∈ pivots)
    tree := buildTree pivots pivots sorted.data }

/-- Depth-bounded enumeration of the tree's (path, leaf) pairs in entry order;
the fuel is the pivot count, which equals the tree depth by construction.
This models the `flatten` + `key.split` round trip of `rollup`, which is the
identity on paths as long as no key contains the delimiter. -/
def pathsFuel : ℕ → PTree → List (List String × DataFrame)
  | _, .leaf d => [([], d)]
  | 0, .node _ => []
  | n + 1, .node es =>
    es.foldl
      (fun acc e => acc ++ (pathsFuel n e.2).map (fun pr => (e.1 :: pr.1, pr.2)))
      []

/-- `PivotTable.rollup(callback, { name })`: apply the callback to each leaf's
row array, then rebuild a flat DataFrame whose rows bind the pivot columns to
the path keys and `name` to the scalar. -/
def PivotTable.rollup (pt : PivotTable) (cb : List Row → Value) (name : String) : DataFrame :=
  let flattened := (pathsFuel pt.pivots.length pt.tree).map (fun pr => (pr.1, cb pr.2.data))
  let rows := flattened.map
    (fun pr =>
      let vals : List Value := pr.1.map .str ++ [pr.2]
      vals.enum.foldl
        (fun acc p =>
          objInsert acc
            (if p.1 < pt.pivots.length then pt.pivots.getD p.1 "" else name) p.2)
        [])
  DataFrame.fromArray rows

/-- Model of `d3.sum(l, d => d[column])` inside `PivotTable.sum` (d3 coerces
the accessed value itself). -/
def d3sumBy (f : Row → Value) (l : List Row) : JsNumber :=
  ((l.map f).filterMap Value.toNumber).foldl JsNumber.add 0

/-- Capitalise the first character (`column[0].toUpperCase() +
column.slice(1)`); the empty string is returned unchanged (the source would
throw on it, but pivot columns are never empty). -/
def capFirst (s : String) : String :=
  match s.data with
  | [] => s
  | c :: rest => String.mk (c.toUpper :: rest)

/-- `PivotTable.sum(column)`: guard that the column is a non-pivot column of
the PivotTable, then roll up with the per-leaf d3 sum under the name
`sum<Column>`. -/
def PivotTable.sum (pt : PivotTable) (column : String) : Except String DataFrame :=
  if ¬ column ∈ pt.leafCols then .error ("No column named " ++ column)
  else
    .ok (PivotTable.rollup pt (fun rows => .num (d3sumBy (fun r => rowGet r column) rows))
      ("sum" ++ capFirst column))

/-- A heap of row arrays, used to model reference aliasing of the `_data`
array shared between a DataFrame and its clone.  Array references are indices
into the heap. -/
abbrev RowHeap := List (List Row)

/-- A DataFrame object in the aliasing model: a reference to its `_data`
array plus its column list. -/
structure DataFrameRef where
  dataRef : ℕ
  columns : List String
  deriving DecidableEq, Repr

/-- `new DataFrame(rows)` from an array: deep-copies and coerces the rows and
allocates a fresh array on the heap. -/
def DataFrameRef.fromArray (h : RowHeap) (rows : List Row) : DataFrameRef × RowHeap :=
  let df := DataFrame.fromArray rows
  (⟨h.length, df.columns⟩, h ++ [df.data])

/-- `clone()` = `new DataFrame(this)`: the constructor's `instanceof
DataFrame` branch assigns `this._data = data._data`, sharing the existing
array reference instead of copying it. -/
def DataFrameRef.clone (h : RowHeap) (df : DataFrameRef) : DataFrameRef × RowHeap :=
  (⟨df.dataRef, df.columns⟩, h)

/-- `toArray()` in the aliasing model: read the array behind the reference. -/
def DataFrameRef.toArray (h : RowHeap) (df : DataFrameRef) : List Row :=
  (h.get? df.dataRef).getD []

/-- `set(index, column, value)`: mutates `this._data[index][column]` in place,
i.e. updates the shared array on the heap (the derived per-column Series cache
update is omitted — the claim is about row storage).  Argument validation
passes for the in-range arguments used here. -/
def DataFrameRef.set (h : RowHeap) (df : DataFrameRef) (i : ℕ) (c : String) (v : Value) :
    RowHeap :=
  let arr := DataFrameRef.toArray h df
  h.set df.dataRef (arr.set i (objInsert (arr.getD i []) c v))

/-- A heap of value arrays for the Series aliasing model. -/
abbrev ValHeap := List (List Value)

/-- A Series object in the aliasing model: a reference to its `_data` array. -/
structure SeriesRef where
  dataRef : ℕ
  deriving DecidableEq, Repr

/-- `new Series(values)` from an array: deep copy (identity on scalar lists)
into a fresh heap array. -/
def SeriesRef.fromArray (h : ValHeap) (vs : List Value) : SeriesRef × ValHeap :=
  (⟨h.length⟩, h ++ [vs])

/-- `clone()` = `new Series(this)`: the `instanceof Series` constructor branch
shares `data._data`. -/
def SeriesRef.clone (h : ValHeap) (s : SeriesRef) : SeriesRef × ValHeap :=
  (⟨s.dataRef⟩, h)

/-- `toArray()` in the Series aliasing model. -/
def SeriesRef.toArray (h : ValHeap) (s : SeriesRef) : List Value :=
  (h.get? s.dataRef).getD []

/-- `Series.shuffle(options)`: both branches run
`<array>.sort(() => Math.random() - 0.5)` on an array, in place.  Without
`inPlace` the array sorted is `this.clone()._data`, which is the very same
array as `this._data`.  The data-dependent permutation the random comparator
sort produces is a parameter (`outcome`); any permutation of the array is a
possible outcome. -/
def SeriesRef.shuffle (outcome : List Value → List Value) (h : ValHeap) (s : SeriesRef)
    (inPlace : Bool) : SeriesRef × ValHeap :=
  let target : SeriesRef := if inPlace then s else (SeriesRef.clone h s).1
  (target, h.set target.dataRef (outcome (SeriesRef.toArray h s)))

/-- Decidable equality for `Except`, so concrete results of fallible
operations can be checked by `decide`. -/
instance {e a : Type} [DecidableEq e] [DecidableEq a] : DecidableEq (Except e a) :=
  fun x y =>
    match x, y with
    | .error ex, .error ey =>
      if h : ex = ey then .isTrue (by rw [h]) else .isFalse (fun hc => by cases hc; exact h rfl)
    | .ok ax, .ok ay =>
      if h : ax = ay then .isTrue (by rw [h]) else .isFalse (fun hc => by cases hc; exact h rfl)
    | .error _, .ok _ => .isFalse (fun hc => by cases hc)
    | .ok _, .error _ => .isFalse (fun hc => by cases hc)

/-- The table `T1 = [{id:1, x:'a'}, {id:2, x:'b'}]` of the join scenario. -/
def joinT1 : DataFrame :=
  DataFrame.fromArray
    [[("id", .num 1), ("x", .str "a")], [("id", .num 2), ("x", .str "b")]]

/-- The table `T2 = [{id:1, y:'c'}]` of the join scenario. -/
def joinT2 : DataFrame :=
  DataFrame.fromArray [[("id", .num 1), ("y", .str "c")]]

/-- The table `[{s:'A', v:1}, {s:'A', v:3}, {s:'B', v:5}]` of the pivot/rollup
scenario. -/
def pivotT : DataFrame :=
  DataFrame.fromArray
    [[("s", .str "A"), ("v", .num 1)], [("s", .str "A"), ("v", .num 3)],
     [("s", .str "B"), ("v", .num 5)]]

/-- Membership form of the aggregate guard `this.any(v => Number.isNaN(+v))`. -/
theorem seriesAnyNaN_iff (l : List Value) :
    seriesAnyNaN l = true ↔ ∃ v ∈ l, v.toNumber = none := by
  simp [seriesAnyNaN, List.any_eq_true, Option.isNone_iff_eq_none]

/-- C1: the claim states that `clone()` deep-copies row data so that mutating
the clone leaves the original unchanged.  The code violates this: the
`instanceof DataFrame` constructor branch assigns `this._data = data._data`,
so a clone shares the original's row array, and `set` through the clone is
visible in the original.  This theorem evaluates the heap model at the failing
input: the clone initially deep-equals the original (the claim's first part),
but after `clone.set(0, 'a', 2)` the original's rows have changed. -/
theorem clone_set_mutates_original :
    (let p := DataFrameRef.fromArray [] [[("a", Value.num 1)]]
     let c := DataFrameRef.clone p.2 p.1
     DataFrameRef.toArray c.2 c.1 = DataFrameRef.toArray c.2 p.1
       ∧ DataFrameRef.toArray (DataFrameRef.set c.2 c.1 0 "a" (Value.num 2)) p.1
           = [[("a", Value.num 2)]]
       ∧ DataFrameRef.toArray (DataFrameRef.set c.2 c.1 0 "a" (Value.num 2)) p.1
           ≠ DataFrameRef.toArray c.2 p.1) := by
  decide

/-- C2: the claim states that `sort(by)` orders rows ascending primarily by
the first key and that an earlier key's verdict is never overridden by a later
key.  The code violates this: the comparator is a `reduce` whose callback
returns `0` whenever the current key's values are equal, which resets the
accumulated verdict of every earlier key instead of preserving it.  At the
failing input (rows with distinct `a` but equal `b`, sorted by `['a', 'b']`)
the comparator returns 0 and the stable sort leaves the rows unsorted, while
sorting by `['a']` alone orders them correctly. -/
theorem sort_later_tie_resets_verdict :
    DataFrame.sortData
        [[("a", Value.num 2), ("b", Value.num 5)], [("a", Value.num 1), ("b", Value.num 5)]]
        ["a", "b"] false
      = [[("a", Value.num 2), ("b", Value.num 5)], [("a", Value.num 1), ("b", Value.num 5)]]
    ∧ sortComparator ["a", "b"] false
        [("a", Value.num 2), ("b", Value.num 5)] [("a", Value.num 1), ("b", Value.num 5)] = 0
    ∧ DataFrame.sortData
        [[("a", Value.num 2), ("b", Value.num 5)], [("a", Value.num 1), ("b", Value.num 5)]]
        ["a"] false
      = [[("a", Value.num 1), ("b", Value.num 5)], [("a", Value.num 2), ("b", Value.num 5)]] := by
  decide

/-- C3: the claim states that assigning a column list with a duplicate name
fails and leaves the DataFrame unchanged.  The code violates this: the guard
reads `new Set(newColumns).length`, but a JavaScript Set has `size`, not
`length`, so the guard compares `undefined < n`, which is always false — the
setter never throws for any input, and at the failing input `['a', 'a']` it
rebuilds the rows (collapsing the duplicate key) and installs the duplicated
column list. -/
theorem duplicate_columns_never_rejected :
    (∀ (df : DataFrame) (cols : List String), isErr (DataFrame.setColumns df cols) = false)
    ∧ DataFrame.setColumns ⟨[[("a", Value.num 1), ("b", Value.num 2)]], ["a", "b"]⟩ ["a", "a"]
        = .ok ⟨[[("a", Value.num 1)]], ["a", "a"]⟩ := by
  refine ⟨fun df cols => rfl, by decide⟩

/-- C5 counterexample: the claim states the left join returns exactly
`[{id:1, x:'a', y:'c'}, {id:2, x:'b'}]`.  In the code the final
`dropDuplicates` pass reassigns `df.columns`, whose setter rebuilds every row
against the full column list `[id, x, y]` and creates a `y` key bound to
`undefined` on the unmatched row, so the returned rows are not the claimed
ones. -/
theorem join_left_not_claimed_rows :
    (DataFrame.join joinT1 joinT2 "id" .left).toArray
      ≠ [[("id", Value.num 1), ("x", Value.str "a"), ("y", Value.str "c")],
         [("id", Value.num 2), ("x", Value.str "b")]] := by
  decide

/-- C5 (amended): the left join keeps both rows of T1 and merges the matched
row with T2's fields; the unmatched row keeps its original values but gains a
`y` key bound to `undefined` (indistinguishable from the claimed shape under
JSON serialisation, as the second conjunct shows); the inner join returns
exactly the single merged row. -/
theorem join_left_inner_rows :
    (DataFrame.join joinT1 joinT2 "id" .left).toArray
      = [[("id", Value.num 1), ("x", Value.str "a"), ("y", Value.str "c")],
         [("id", Value.num 2), ("x", Value.str "b"), ("y", Value.undefinedV)]]
    ∧ ((DataFrame.join joinT1 joinT2 "id" .left).toArray).map jsonRow
      = [[("id", Value.num 1), ("x", Value.str "a"), ("y", Value.str "c")],
         [("id", Value.num 2), ("x", Value.str "b")]]
    ∧ (DataFrame.join joinT1 joinT2 "id" .inner).toArray
      = [[("id", Value.num 1), ("x", Value.str "a"), ("y", Value.str "c")]] := by
  decide

/-- C6: pivoting `[{s:'A',v:1},{s:'A',v:3},{s:'B',v:5}]` on `'s'` and summing
column `'v'` yields exactly one output row per leaf, carrying the pivot value
and the leaf sum under the name `sumV`: `[{s:'A',sumV:4},{s:'B',sumV:5}]`. -/
theorem pivot_sum_rollup :
    PivotTable.sum (PivotTable.mk' pivotT ["s"]) "v"
      = .ok ⟨[[("s", Value.str "A"), ("sumV", Value.num 4)],
              [("s", Value.str "B"), ("sumV", Value.num 5)]],
             ["s", "sumV"]⟩ := by
  decide

/-- C9: the claim states that `shuffle()` without `inPlace` returns a new
instance and leaves the receiver unchanged.  The code violates this: the
non-in-place branch sorts `this.clone()._data` with the random comparator, but
the clone shares the receiver's `_data` array, so the receiver is permuted as
well (here instantiated with the reversal, a possible outcome of the random
comparator sort on a two-element array), and the returned object references
the very same array. -/
theorem shuffle_mutates_receiver :
    (let p := SeriesRef.fromArray [] [Value.num 1, Value.num 2]
     let r := SeriesRef.shuffle List.reverse p.2 p.1 false
     SeriesRef.toArray r.2 p.1 = [Value.num 2, Value.num 1]
       ∧ SeriesRef.toArray r.2 p.1 ≠ SeriesRef.toArray p.2 p.1
       ∧ r.1.dataRef = p.1.dataRef) := by
  decide

/-- C4: every numeric aggregate of Series (`sum`, `min`, `max`, `extent`,
`mean`, `median`, `std`) fails exactly when some value of the sequence fails
numeric coercion (coerces to NaN); when no value fails, each aggregate is the
corresponding d3 computation over the coerced values; in particular
`Series(['a','b']).sum()` and `Series([1,2,'x']).mean()` fail. -/
theorem aggregates_fail_iff_coercion_fails (l : List Value) (sqrtFn : JsNumber → JsNumber) :
    (isErr (Series.sum l) = true ↔ ∃ v ∈ l, v.toNumber = none)
    ∧ (isErr (Series.min l) = true ↔ ∃ v ∈ l, v.toNumber = none)
    ∧ (isErr (Series.max l) = true ↔ ∃ v ∈ l, v.toNumber = none)
    ∧ (isErr (Series.extent l) = true ↔ ∃ v ∈ l, v.toNumber = none)
    ∧ (isErr (Series.mean l) = true ↔ ∃ v ∈ l, v.toNumber = none)
    ∧ (isErr (Series.median l) = true ↔ ∃ v ∈ l, v.toNumber = none)
    ∧ (isErr (Series.std sqrtFn l) = true ↔ ∃ v ∈ l, v.toNumber = none)
    ∧ ((¬ ∃ v ∈ l, v.toNumber = none) →
        Series.sum l = .ok (d3sum l) ∧ Series.min l = .ok (d3min l)
        ∧ Series.max l = .ok (d3max l) ∧ Series.extent l = .ok (d3extent l)
        ∧ Series.mean l = .ok (d3mean l) ∧ Series.median l = .ok (d3median l)
        ∧ Series.std sqrtFn l = .ok ((d3variance l).map sqrtFn))
    ∧ isErr (Series.sum [Value.str "a", Value.str "b"]) = true
    ∧ isErr (Series.mean [Value.num 1, Value.num 2, Value.str "x"]) = true := by
  by_cases h : seriesAnyNaN l = true
  · have hex := (seriesAnyNaN_iff l).mp h
    refine ⟨?_, ?_, ?_, ?_, ?_, ?_, ?_, ?_, by decide, by decide⟩ <;>
      simp [Series.sum, Series.min, Series.max, Series.extent, Series.mean,
        Series.median, Series.std, h, isErr, hex]
  · have hex : ¬ ∃ v ∈ l, v.toNumber = none := fun hc => h ((seriesAnyNaN_iff l).mpr hc)
    refine ⟨?_, ?_, ?_, ?_, ?_, ?_, ?_, ?_, by decide, by decide⟩ <;>
      simp [Series.sum, Series.min, Series.max, Series.extent, Series.mean,
        Series.median, Series.std, h, isErr, hex]

/-- Witness for C4: the theorem applied at concrete inputs. -/
theorem aggregates_fail_iff_coercion_fails_witness :
    isErr (Series.sum [Value.str "a"]) = true
    ∧ Series.sum [Value.num 1, Value.num 2] = .ok 3 := by
  constructor
  · exact (aggregates_fail_iff_coercion_fails [Value.str "a"] id).1.mpr
      ⟨Value.str "a", by decide, by decide⟩
  · have h := ((aggregates_fail_iff_coercion_fails [Value.num 1, Value.num 2]
      id).2.2.2.2.2.2.2.1 (by decide)).1
    rw [h]; decide

/-- C8: constructing a DataFrame from an array of flat records and reading it
back with `toArray` returns the rows with the constructor's per-cell coercion
applied; the coercion leaves booleans, numbers, `null` and non-numeric strings
untouched and turns a (nonempty) cleanly-parsing numeric string into the
parsed number; an empty or missing input yields zero rows and zero columns. -/
theorem construction_roundtrip (rows : List Row)
    (hu : ∀ r ∈ rows, ∀ kv ∈ r, kv.2 ≠ Value.undefinedV) :
    (DataFrame.fromArray rows).toArray
        = rows.map (fun r => r.map (fun kv => (kv.1, coerceCell kv.2)))
    ∧ (∀ b, coerceCell (Value.bool b) = Value.bool b)
    ∧ (∀ q, coerceCell (Value.num q) = Value.num q)
    ∧ coerceCell Value.null = Value.null
    ∧ (∀ s, jsStringToNumber s = none → coerceCell (Value.str s) = Value.str s)
    ∧ (∀ s q, s ≠ "" → jsStringToNumber s = some q → coerceCell (Value.str s) = Value.num q)
    ∧ DataFrame.mk' none = ⟨[], []⟩
    ∧ DataFrame.fromArray [] = ⟨[], []⟩ := by
  refine ⟨?_, ?_, ?_, rfl, ?_, ?_, rfl, rfl⟩
  · by_cases hl : rows.length = 0
    · rw [List.length_eq_zero] at hl
      subst hl; rfl
    · show (DataFrame.mk' (some rows)).toArray = _
      rw [DataFrame.mk']
      simp only [hl, if_false]
      show constructorRows rows = _
      unfold constructorRows
      apply List.map_congr_left
      intro r hr
      have : jsonRow r = r := by
        apply List.filter_eq_self.mpr
        intro kv hkv
        simpa using hu r hr kv hkv
      rw [this]
  · intro b; cases b <;> rfl
  · intro q
    by_cases hq : q.n = 0
    · simp [coerceCell, Value.truthy, Value.isBool, Value.toNumber, hq]
    · simp [coerceCell, Value.truthy, Value.isBool, Value.toNumber, hq]
  · intro s hs
    by_cases hse : s = ""
    · subst hse; rfl
    · simp [coerceCell, Value.truthy, Value.isBool, Value.toNumber, hs, hse]
  · intro s q hse hq
    simp [coerceCell, Value.truthy, Value.isBool, Value.toNumber, hse, hq]

/-- Witness for C8: the theorem applied to a concrete record list — the
numeric-looking string becomes a number, the other fields are untouched. -/
theorem construction_roundtrip_witness :
    (DataFrame.fromArray
        [[("a", Value.str "42"), ("b", Value.str "kiwi"), ("c", Value.bool true)]]).toArray
      = [[("a", Value.num 42), ("b", Value.str "kiwi"), ("c", Value.bool true)]] := by
  have h := (construction_roundtrip
    [[("a", Value.str "42"), ("b", Value.str "kiwi"), ("c", Value.bool true)]]
    (by decide)).1
  rw [h]; decide

/-- C10: `Series.reduce(fn, initial)` tests the provided initial value for
JavaScript truthiness, so a falsy initial value (0, empty string, false, null)
is ignored: the fold is seeded with the first element and starts at the
second, exactly as when no initial value is given; only a truthy initial value
is used as the seed. -/
theorem reduce_falsy_initial_ignored :
    (∀ (f : Value → Value → Value) (x : Value) (xs : List Value) (v : Value),
        v.truthy = false →
          Series.reduce f v (x :: xs) = some (xs.foldl f x)
          ∧ Series.reduce f v (x :: xs) = Series.reduce f Value.undefinedV (x :: xs))
    ∧ (∀ (f : Value → Value → Value) (l : List Value) (v : Value),
        v.truthy = true → Series.reduce f v l = some (l.foldl f v))
    ∧ (Value.num 0).truthy = false ∧ (Value.str "").truthy = false
    ∧ (Value.bool false).truthy = false ∧ Value.null.truthy = false := by
  refine ⟨?_, ?_, by decide, by decide, by decide, by decide⟩
  · intro f x xs v hv
    have hundef : Value.undefinedV.truthy = false := rfl
    constructor <;> simp [Series.reduce, hv, hundef, arrayReduceNoInit]
  · intro f l v hv
    simp [Series.reduce, hv]

/-- Witness for C10: a falsy initial value of 0 is ignored — the fold is
seeded with the first element, not with 0. -/
theorem reduce_falsy_initial_ignored_witness :
    Series.reduce (fun a _ => a) (Value.num 0) [Value.num 5, Value.num 7]
      = some (Value.num 5) :=
  (reduce_falsy_initial_ignored.1 (fun a _ => a) (Value.num 5) [Value.num 7]
    (Value.num 0) (by decide)).1

/-- Property read on a cons cell: the head binding answers when its key
matches, otherwise the read falls through to the tail. -/
theorem rowGet_cons (k' : String) (v' : Value) (tl : Row) (c : String) :
    rowGet ((k', v') :: tl) c = if k' = c then v' else rowGet tl c := by
  simp only [rowGet, List.find?_cons]
  by_cases h : k' = c <;> simp [h]

/-- Property read on the empty object is `undefined`. -/
theorem rowGet_nil (c : String) : rowGet [] c = Value.undefinedV := rfl

/-- Reading a key after an object insertion: the inserted key reads the new
value, every other key is unchanged. -/
theorem rowGet_objInsert (r : Row) (k : String) (v : Value) (c : String) :
    rowGet (objInsert r k v) c = if c = k then v else rowGet r c := by
  induction r with
  | nil =>
    show rowGet [(k, v)] c = _
    rw [rowGet_cons]
    by_cases h : k = c
    · rw [if_pos h, if_pos h.symm]
    · rw [if_neg h, if_neg (fun hc => h hc.symm)]
  | cons hd tl ih =>
    obtain ⟨k', v'⟩ := hd
    show rowGet (if k' = k then (k, v) :: tl else (k', v') :: objInsert tl k v) c = _
    by_cases h1 : k' = k
    · subst h1
      rw [if_pos rfl, rowGet_cons, rowGet_cons]
      by_cases h2 : k' = c
      · rw [if_pos h2, if_pos h2.symm]
      · rw [if_neg h2, if_neg (fun hc => h2 hc.symm), if_neg h2]
    · rw [if_neg h1, rowGet_cons, rowGet_cons, ih]
      by_cases h2 : k' = c
      · rw [if_pos h2, if_neg (fun hc : c = k => h1 (h2.trans hc)), if_pos h2]
      · rw [if_neg h2]
        by_cases h3 : c = k
        · rw [if_pos h3, if_pos h3]
        · rw [if_neg h3, if_neg h3, if_neg h2]

/-- Fold extensionality: folds of functions that agree on the list's elements
are equal. -/
theorem foldl_ext {α β : Type} (f g : β → α → β) (l : List α)
    (h : ∀ acc : β, ∀ x ∈ l, f acc x = g acc x) (init : β) :
    l.foldl f init = l.foldl g init := by
  induction l generalizing init with
  | nil => rfl
  | cons x xs ih =>
    simp only [List.foldl_cons]
    rw [h init x (by simp)]
    exact ih (fun acc y hy => h acc y (by simp [hy])) _

/-- Reading a key after folding object insertions whose values depend only on
the inserted key. -/
theorem rowGet_foldl_objInsert (cols : List String) (v : String → Value) (init : Row)
    (c : String) :
    rowGet (cols.foldl (fun acc k => objInsert acc k (v k)) init) c
      = if c ∈ cols then v c else rowGet init c := by
  induction cols generalizing init with
  | nil => simp
  | cons k ks ih =>
    simp only [List.foldl_cons]
    rw [ih]
    by_cases hc : c ∈ ks
    · simp [hc]
    · by_cases hck : c = k
      · subst hck; simp [hc, rowGet_objInsert]
      · simp [hc, hck, rowGet_objInsert]

/-- An element of `l.enum` is the element of `l` at its index. -/
theorem enum_get (l : List String) (p : ℕ × String) (hp : p ∈ l.enum) :
    l.get? p.1 = some p.2 := by
  obtain ⟨i, x⟩ := p
  have h := List.mem_enumFrom (show (i, x) ∈ l.enumFrom 0 from hp)
  obtain ⟨-, h2, h3⟩ := h
  simp only [Nat.sub_zero] at h3
  have hilt : i < l.length := by omega
  rw [List.get?_eq_getElem? l i, List.getElem?_eq_getElem hilt]
  exact congrArg some h3.symm

/-- With identical old and new column lists, the columns-setter row rewrite is
the fold that re-inserts each column with its current value (the `undefined`
fall-back reads the very same column). -/
theorem rebuildRow_eq_fold (cols : List String) (r : Row) :
    rebuildRow cols cols r
      = cols.foldl (fun acc c => objInsert acc c (rowGet r c)) [] := by
  unfold rebuildRow
  have h2 : cols.foldl (fun acc c => objInsert acc c (rowGet r c)) ([] : Row)
      = cols.enum.foldl (fun acc p => objInsert acc p.2 (rowGet r p.2)) [] := by
    conv_lhs => rw [← List.enum_map_snd cols]
    rw [List.foldl_map]
  rw [h2]
  apply foldl_ext
  intro acc p hp
  rw [enum_get cols p hp]
  by_cases hu : rowGet r p.2 ≠ Value.undefinedV
  · rw [if_pos hu]
  · rw [if_neg hu]

/-- The columns-setter rewrite with identical column lists preserves the value
read at every listed column. -/
theorem rowGet_rebuildRow (cols : List String) (r : Row) (c : String) (hc : c ∈ cols) :
    rowGet (rebuildRow cols cols r) c = rowGet r c := by
  rw [rebuildRow_eq_fold, rowGet_foldl_objInsert, if_pos hc]

/-- The columns-setter rewrite with identical column lists is idempotent. -/
theorem rebuildRow_idem (cols : List String) (r : Row) :
    rebuildRow cols cols (rebuildRow cols cols r) = rebuildRow cols cols r := by
  conv_lhs => rw [rebuildRow_eq_fold]
  conv_rhs => rw [rebuildRow_eq_fold]
  apply foldl_ext
  intro acc c hc
  rw [rowGet_rebuildRow cols r c hc]

/-- The serialized projection depends only on the values read at the chosen
columns. -/
theorem projKey_congr (cols : List String) (r r' : Row)
    (h : ∀ c ∈ cols, rowGet r c = rowGet r' c) : projKey cols r = projKey cols r' := by
  unfold projKey
  have : cols.foldl (fun acc c => objInsert acc c (rowGet r c)) ([] : Row)
      = cols.foldl (fun acc c => objInsert acc c (rowGet r' c)) [] :=
    foldl_ext _ _ cols (fun acc c hc => by rw [h c hc]) []
  rw [this]

/-- The columns-setter rewrite does not change a row's serialized projection. -/
theorem projKey_rebuildRow (cols : List String) (r : Row) :
    projKey cols (rebuildRow cols cols r) = projKey cols r :=
  projKey_congr cols _ _ (fun c hc => rowGet_rebuildRow cols r c hc)

/-- Membership form of the duplicate-position test. -/
theorem isDupB_iff (keys : List (List Value)) (i : ℕ) :
    isDupB keys i = true ↔ ∃ j, j < i ∧ keys[j]? = keys[i]? := by
  simp [isDupB, List.any_eq_true, List.mem_range]

/-- Every duplicate position has a first-occurrence witness: an earlier index
with the same key that is itself not a duplicate. -/
theorem exists_first_occurrence (keys : List (List Value)) (i : ℕ)
    (h : isDupB keys i = true) :
    ∃ j, j < i ∧ keys[j]? = keys[i]? ∧ isDupB keys j = false := by
  rw [isDupB_iff] at h
  obtain ⟨j, hj, hk⟩ := h
  have hP : ∃ n, keys[n]? = keys[i]? := ⟨j, hk⟩
  refine ⟨Nat.find hP, lt_of_le_of_lt (Nat.find_min' hP hk) hj, Nat.find_spec hP, ?_⟩
  by_contra hb
  rw [Bool.not_eq_false, isDupB_iff] at hb
  obtain ⟨j', hj', hk'⟩ := hb
  exact Nat.find_min hP hj' (hk'.trans (Nat.find_spec hP))

/-- A fold of drop steps whose outer index is already marked changes nothing
(the `rowsToDrop.includes(indexA)` guard). -/
theorem foldl_dropStep_skip (keys : List (List Value)) (iA : ℕ) (l : List ℕ) :
    ∀ ds : List ℕ, iA ∈ ds → l.foldl (dropStep keys iA) ds = ds := by
  induction l with
  | nil => intro ds _; rfl
  | cons b bs ih =>
    intro ds h
    simp only [List.foldl_cons]
    rw [show dropStep keys iA ds b = ds from by simp [dropStep, h]]
    exact ih ds h

/-- `innerPass` with a marked outer index changes nothing. -/
theorem innerPass_skip (keys : List (List Value)) (iA : ℕ) (ds : List ℕ) (h : iA ∈ ds) :
    innerPass keys iA ds = ds :=
  foldl_dropStep_skip keys iA _ ds h

/-- Membership after folding the inner drop steps over a contiguous index
range: exactly the previously marked indices plus the in-range indices whose
key matches the outer index's key. -/
theorem foldl_dropStep_mem (keys : List (List Value)) (iA : ℕ) :
    ∀ (c s : ℕ), iA + 1 ≤ s → ∀ ds : List ℕ, iA ∉ ds → ∀ i : ℕ,
      (i ∈ (List.range' s c).foldl (dropStep keys iA) ds ↔
        i ∈ ds ∨ (s ≤ i ∧ i < s + c ∧ keys[iA]? = keys[i]? ∧ i ∉ ds)) := by
  intro c
  induction c with
  | zero =>
    intro s hs ds hiA i
    simp only [List.range', List.foldl_nil]
    constructor
    · exact Or.inl
    · rintro (h | ⟨h1, h2, h3, h4⟩)
      · exact h
      · omega
  | succ c ih =>
    intro s hs ds hiA i
    rw [List.range'_succ]
    simp only [List.foldl_cons]
    by_cases hsd : s ∈ ds
    · rw [show dropStep keys iA ds s = ds from by simp [dropStep, hsd]]
      rw [ih (s + 1) (by omega) ds hiA i]
      constructor
      · rintro (h | ⟨h1, h2, h3, h4⟩)
        · exact Or.inl h
        · exact Or.inr ⟨by omega, by omega, h3, h4⟩
      · rintro (h | ⟨h1, h2, h3, h4⟩)
        · exact Or.inl h
        · have hne : i ≠ s := fun he => h4 (he ▸ hsd)
          exact Or.inr ⟨by omega, by omega, h3, h4⟩
    · by_cases hk : keys[iA]? = keys[s]?
      · rw [show dropStep keys iA ds s = ds ++ [s] from by simp [dropStep, hsd, hiA, hk]]
        have hiA' : iA ∉ ds ++ [s] := by
          simp only [List.mem_append, List.mem_singleton]
          rintro (h | h)
          · exact hiA h
          · omega
        rw [ih (s + 1) (by omega) (ds ++ [s]) hiA' i]
        constructor
        · rintro (h | ⟨h1, h2, h3, h4⟩)
          · rcases List.mem_append.mp h with h | h
            · exact Or.inl h
            · rw [List.mem_singleton] at h
              subst h
              exact Or.inr ⟨le_refl _, by omega, hk, hsd⟩
          · have hns : i ∉ ds := fun hc => h4 (List.mem_append.mpr (Or.inl hc))
            exact Or.inr ⟨by omega, by omega, h3, hns⟩
        · rintro (h | ⟨h1, h2, h3, h4⟩)
          · exact Or.inl (List.mem_append.mpr (Or.inl h))
          · by_cases his : i = s
            · subst his
              exact Or.inl (List.mem_append.mpr (Or.inr (by simp)))
            · refine Or.inr ⟨by omega, by omega, h3, ?_⟩
              simp only [List.mem_append, List.mem_singleton]
              rintro (h | h)
              · exact h4 h
              · exact his h
      · rw [show dropStep keys iA ds s = ds from by simp [dropStep, hsd, hiA, hk]]
        rw [ih (s + 1) (by omega) ds hiA i]
        constructor
        · rintro (h | ⟨h1, h2, h3, h4⟩)
          · exact Or.inl h
          · exact Or.inr ⟨by omega, by omega, h3, h4⟩
        · rintro (h | ⟨h1, h2, h3, h4⟩)
          · exact Or.inl h
          · have hne : i ≠ s := fun he => hk (he ▸ h3)
            exact Or.inr ⟨by omega, by omega, h3, h4⟩

/-- Membership after one full inner pass with an unmarked in-range outer
index. -/
theorem innerPass_mem (keys : List (List Value)) (iA : ℕ) (ds : List ℕ)
    (hlt : iA < keys.length) (hiA : iA ∉ ds) (i : ℕ) :
    i ∈ innerPass keys iA ds ↔
      i ∈ ds ∨ (iA < i ∧ i < keys.length ∧ keys[iA]? = keys[i]? ∧ i ∉ ds) := by
  unfold innerPass
  rw [foldl_dropStep_mem keys iA (keys.length - (iA + 1)) (iA + 1) (le_refl _) ds hiA i]
  constructor
  · rintro (h | ⟨h1, h2, h3, h4⟩)
    · exact Or.inl h
    · exact Or.inr ⟨by omega, by omega, h3, h4⟩
  · rintro (h | ⟨h1, h2, h3, h4⟩)
    · exact Or.inl h
    · exact Or.inr ⟨by omega, by omega, h3, h4⟩

/-- Unfolding one outer iteration of the duplicate scan. -/
theorem outerState_succ (keys : List (List Value)) (m : ℕ) :
    outerState keys (m + 1) = innerPass keys m (outerState keys m) := by
  unfold outerState
  rw [List.range_succ, List.foldl_append]
  rfl

/-- Invariant of the outer loop: after `m` iterations the marked indices are
exactly the in-range duplicate positions whose first occurrence has already
been processed. -/
theorem outerState_mem (keys : List (List Value)) :
    ∀ m, m ≤ keys.length → ∀ i,
      (i ∈ outerState keys m ↔
        (i < keys.length ∧
          ∃ j, j < i ∧ j < m ∧ keys[j]? = keys[i]? ∧ isDupB keys j = false)) := by
  intro m
  induction m with
  | zero =>
    intro _ i
    simp only [outerState, List.range_zero, List.foldl_nil, List.not_mem_nil, false_iff]
    rintro ⟨_, j, _, hj0, _⟩
    omega
  | succ m ih =>
    intro hm i
    rw [outerState_succ]
    have hmlen : m < keys.length := by omega
    have ihm := ih (by omega)
    by_cases hm_in : m ∈ outerState keys m
    · rw [innerPass_skip keys m _ hm_in, ihm i]
      have hdupm : isDupB keys m = true := by
        obtain ⟨_, j, hj1, _, hk, _⟩ := (ihm m).mp hm_in
        rw [isDupB_iff]
        exact ⟨j, hj1, hk⟩
      constructor
      · rintro ⟨hi, j, h1, h2, h3, h4⟩
        exact ⟨hi, j, h1, by omega, h3, h4⟩
      · rintro ⟨hi, j, h1, h2, h3, h4⟩
        by_cases hjm : j = m
        · subst hjm
          rw [hdupm] at h4
          cases h4
        · exact ⟨hi, j, h1, by omega, h3, h4⟩
    · have hfirst : isDupB keys m = false := by
        by_contra hb
        rw [Bool.not_eq_false] at hb
        obtain ⟨j0, hj0, hk0, hf0⟩ := exists_first_occurrence keys m hb
        exact hm_in ((ihm m).mpr ⟨hmlen, j0, hj0, hj0, hk0, hf0⟩)
      rw [innerPass_mem keys m _ hmlen hm_in i]
      constructor
      · rintro (h | ⟨h1, h2, h3, h4⟩)
        · obtain ⟨hi, j, a1, a2, a3, a4⟩ := (ihm i).mp h
          exact ⟨hi, j, a1, by omega, a3, a4⟩
        · exact ⟨h2, m, h1, by omega, h3, hfirst⟩
      · rintro ⟨hi, j, h1, h2, h3, h4⟩
        by_cases hjm : j = m
        · subst hjm
          by_cases hin : i ∈ outerState keys j
          · exact Or.inl hin
          · exact Or.inr ⟨h1, hi, h3, hin⟩
        · exact Or.inl ((ihm i).mpr ⟨hi, j, h1, by omega, h3, h4⟩)

/-- The nested forEach loops of `dropDuplicates` mark exactly the in-range
indices whose projection equals some earlier index's projection. -/
theorem rowsToDrop_mem (keys : List (List Value)) (i : ℕ) :
    i ∈ rowsToDrop keys ↔ (i < keys.length ∧ isDupB keys i = true) := by
  unfold rowsToDrop
  rw [outerState_mem keys keys.length (le_refl _) i]
  constructor
  · rintro ⟨hi, j, h1, _, h3, _⟩
    exact ⟨hi, (isDupB_iff keys i).mpr ⟨j, h1, h3⟩⟩
  · rintro ⟨hi, hd⟩
    obtain ⟨j0, hj0, hk0, hf0⟩ := exists_first_occurrence keys i hd
    exact ⟨hi, j0, hj0, by omega, hk0, hf0⟩

/-- Index filters agreeing on the traversed index range keep the same rows. -/
theorem keepIdx_congr (p q : ℕ → Bool) :
    ∀ (data : List Row) (i : ℕ),
      (∀ j, i ≤ j → j < i + data.length → p j = q j) →
      keepIdx p i data = keepIdx q i data := by
  intro data
  induction data with
  | nil => intro i _; rfl
  | cons r rs ih =>
    intro i h
    simp only [keepIdx]
    rw [h i (le_refl i) (by simp), ih (i + 1) (fun j hj1 hj2 => h j (by omega)
      (by simp only [List.length_cons]; omega))]

/-- `specDedupAux` depends on its seen set only through membership. -/
theorem specDedupAux_congr (cols : List String) :
    ∀ (l : List Row) (s1 s2 : List (List Value)), (∀ k, k ∈ s1 ↔ k ∈ s2) →
      specDedupAux cols s1 l = specDedupAux cols s2 l := by
  intro l
  induction l with
  | nil => intro _ _ _; rfl
  | cons r rs ih =>
    intro s1 s2 h
    simp only [specDedupAux]
    by_cases hk : projKey cols r ∈ s1
    · rw [if_pos hk, if_pos ((h _).mp hk)]
      exact ih s1 s2 h
    · rw [if_neg hk, if_neg (fun hc => hk ((h _).mpr hc))]
      congr 1
      exact ih _ _ (fun k => by simp only [List.mem_cons, h k])

/-- Master correspondence: splicing out the marked duplicate indices, started
after an arbitrary prefix of already-seen keys, is first-occurrence
deduplication with that prefix as the seen set. -/
theorem keepIdx_eq_specDedupAux (cols : List String) :
    ∀ (data : List Row) (pre : List (List Value)),
      keepIdx (fun i => !isDupB (pre ++ data.map (projKey cols)) i) pre.length data
        = specDedupAux cols pre data := by
  intro data
  induction data with
  | nil => intro _; rfl
  | cons r rs ih =>
    intro pre
    simp only [List.map_cons, keepIdx, specDedupAux]
    have hhead : isDupB (pre ++ projKey cols r :: rs.map (projKey cols)) pre.length = true
        ↔ projKey cols r ∈ pre := by
      rw [isDupB_iff]
      constructor
      · rintro ⟨j, hj, hkey⟩
        rw [List.getElem?_append_left hj, List.getElem?_append_right (le_refl _)] at hkey
        simp only [Nat.sub_self, List.getElem?_cons_zero] at hkey
        exact List.mem_iff_getElem?.mpr ⟨j, hkey⟩
      · intro hmem
        obtain ⟨j, hj⟩ := List.mem_iff_getElem?.mp hmem
        have hjlt : j < pre.length := by
          by_contra hge
          push_neg at hge
          rw [List.getElem?_eq_none hge] at hj
          cases hj
        refine ⟨j, hjlt, ?_⟩
        rw [List.getElem?_append_left hjlt, List.getElem?_append_right (le_refl _)]
        simpa using hj
    have hlist : pre ++ projKey cols r :: rs.map (projKey cols)
        = (pre ++ [projKey cols r]) ++ rs.map (projKey cols) := by
      simp
    by_cases hmem : projKey cols r ∈ pre
    · rw [show isDupB (pre ++ projKey cols r :: rs.map (projKey cols)) pre.length = true from
        hhead.mpr hmem]
      simp only [Bool.not_true, Bool.false_eq_true, if_false, if_pos hmem]
      rw [hlist, show pre.length + 1 = (pre ++ [projKey cols r]).length from by simp]
      rw [ih (pre ++ [projKey cols r])]
      apply specDedupAux_congr
      intro x
      simp only [List.mem_append, List.mem_singleton]
      constructor
      · rintro (h | h)
        · exact h
        · exact h ▸ hmem
      · exact Or.inl
    · rw [show isDupB (pre ++ projKey cols r :: rs.map (projKey cols)) pre.length = false from
        by rw [← Bool.not_eq_true, hhead]; exact hmem]
      simp only [Bool.not_false, if_true, if_neg hmem]
      congr 1
      rw [hlist, show pre.length + 1 = (pre ++ [projKey cols r]).length from by simp]
      rw [ih (pre ++ [projKey cols r])]
      apply specDedupAux_congr
      intro x
      rw [List.mem_append, List.mem_singleton, List.mem_cons]
      exact or_comm

/-- The surviving rows of the pairwise duplicate scan are exactly the
first-occurrence deduplication of the rows by serialized projection. -/
theorem dropDuplicatesData_eq_specDedup (cols : List String) (data : List Row) :
    dropDuplicatesData cols data = specDedup cols data := by
  unfold dropDuplicatesData specDedup
  rw [keepIdx_congr (fun i => !decide (i ∈ rowsToDrop (data.map (projKey cols))))
    (fun i => !isDupB (data.map (projKey cols)) i) data 0 ?_]
  · have h := keepIdx_eq_specDedupAux cols data []
    simpa using h
  · intro j hj0 hjlen
    have hjk : j < (data.map (projKey cols)).length := by
      simp only [List.length_map]
      omega
    have hmem := rowsToDrop_mem (data.map (projKey cols)) j
    by_cases hd : isDupB (data.map (projKey cols)) j = true
    · have hin : j ∈ rowsToDrop (data.map (projKey cols)) := hmem.mpr ⟨hjk, hd⟩
      simp [hin, hd]
    · have hout : j ∉ rowsToDrop (data.map (projKey cols)) := fun hc => hd (hmem.mp hc).2
      rw [Bool.not_eq_true] at hd
      simp [hout, hd]

/-- First-occurrence deduplication is idempotent (for any seen set). -/
theorem specDedupAux_idem (cols : List String) :
    ∀ (l : List Row) (seen : List (List Value)),
      specDedupAux cols seen (specDedupAux cols seen l) = specDedupAux cols seen l := by
  intro l
  induction l with
  | nil => intro _; rfl
  | cons r rs ih =>
    intro seen
    simp only [specDedupAux]
    by_cases hk : projKey cols r ∈ seen
    · rw [if_pos hk]
      exact ih seen
    · rw [if_neg hk]
      simp only [specDedupAux, if_neg hk]
      congr 1
      exact ih (projKey cols r :: seen)

/-- First-occurrence deduplication commutes with a row map that preserves
projections. -/
theorem specDedupAux_map (cols : List String) (g : Row → Row)
    (hg : ∀ r, projKey cols (g r) = projKey cols r) :
    ∀ (l : List Row) (seen : List (List Value)),
      specDedupAux cols seen (l.map g) = (specDedupAux cols seen l).map g := by
  intro l
  induction l with
  | nil => intro _; rfl
  | cons r rs ih =>
    intro seen
    simp only [List.map_cons, specDedupAux, hg r]
    by_cases hk : projKey cols r ∈ seen
    · rw [if_pos hk, if_pos hk]
      exact ih seen
    · rw [if_neg hk, if_neg hk, List.map_cons]
      congr 1
      exact ih (projKey cols r :: seen)

/-- C7: `dropDuplicates` removes every later row whose serialized projection
onto the chosen columns equals an earlier row's, keeping the first occurrence
and preserving the order of the survivors (first conjunct: the result is the
spec-modelled first-occurrence deduplication, up to the columns-setter row
normalisation the method ends with), and it is idempotent (second conjunct). -/
theorem dropDuplicates_idempotent_first_occurrence (df : DataFrame) :
    DataFrame.dropDuplicates df
      = ⟨(specDedup df.columns df.data).map (rebuildRow df.columns df.columns), df.columns⟩
    ∧ DataFrame.dropDuplicates (DataFrame.dropDuplicates df)
      = DataFrame.dropDuplicates df := by
  obtain ⟨data, cols⟩ := df
  have h1 : ∀ d : List Row, DataFrame.dropDuplicates ⟨d, cols⟩
      = ⟨(specDedup cols d).map (rebuildRow cols cols), cols⟩ := by
    intro d
    unfold DataFrame.dropDuplicates
    simp only
    rw [dropDuplicatesData_eq_specDedup]
  refine ⟨h1 data, ?_⟩
  rw [h1 data, h1 _]
  have h2 : specDedup cols ((specDedup cols data).map (rebuildRow cols cols))
      = (specDedup cols (specDedup cols data)).map (rebuildRow cols cols) :=
    specDedupAux_map cols _ (projKey_rebuildRow cols) (specDedup cols data) []
  have h3 : specDedup cols (specDedup cols data) = specDedup cols data :=
    specDedupAux_idem cols data []
  congr 1
  rw [h2, h3, List.map_map]
  apply List.map_congr_left
  intro r _
  exact rebuildRow_idem cols r

end Kiwis
